import Mathlib

/-!
# Verification of the screenshot CSV-extraction pipeline

Shallow embedding of the core functions of
`scripts/process_screenshots.py`: `normalize_raw_text`, `parse_csv_row`,
`validate_csv_row` and `request_csv_row`, together with proofs of the
spec's testable properties.

Python strings are modelled as `List Char` (`PyStr`).  Python library
primitives used by the script (`str.strip`, `str.splitlines`,
`str.lower`, `str.startswith`, `str.rstrip`, `csv.reader`) are modelled
here faithfully on that representation.
-/

namespace Breather

/-- Python strings, modelled as lists of characters. -/
abbrev PyStr := List Char

/-- The characters Python's `str.strip()` removes (`str.isspace`):
ASCII whitespace, the C0 separator block, NEL, NBSP and the Unicode
space separators. -/
def pyIsSpace (c : Char) : Bool :=
  [' ', '\t', '\n', '\r', '\x0b', '\x0c',
   '\x1c', '\x1d', '\x1e', '\x1f', '\x85', '\xa0',
   ' ', ' ', ' ', ' ', ' ', ' ', ' ',
   ' ', ' ', ' ', ' ', ' ',
   ' ', ' ', ' ', ' ', '　'].contains c

/-- The line boundaries of Python's `str.splitlines` (with `\r\n`
treated as a single boundary by `splitlinesAux`). -/
def isLineBoundary (c : Char) : Bool :=
  ['\n', '\r', '\x0b', '\x0c', '\x1c', '\x1d', '\x1e',
   '\x85', ' ', ' '].contains c

/-- `str.lstrip()`. -/
def lstrip (s : PyStr) : PyStr := s.dropWhile pyIsSpace

/-- `str.rstrip()`. -/
def rstrip (s : PyStr) : PyStr := (s.reverse.dropWhile pyIsSpace).reverse

/-- Python `str.strip()`: remove leading and trailing whitespace. -/
def pyStrip (s : PyStr) : PyStr := rstrip (lstrip s)

/-- Python `str.rstrip(",")`: remove trailing commas. -/
def pyRstripCommas (s : PyStr) : PyStr :=
  (s.reverse.dropWhile (fun c => c = ',')).reverse

/-- Worker for `pySplitlines`; `acc` holds the current line reversed. -/
def splitlinesAux : List Char → List Char → List PyStr
  | [], acc => if acc = [] then [] else [acc.reverse]
  | '\r' :: '\n' :: cs, acc => acc.reverse :: splitlinesAux cs []
  | c :: cs, acc =>
      if isLineBoundary c then acc.reverse :: splitlinesAux cs []
      else splitlinesAux cs (c :: acc)

/-- Python `str.splitlines()`. -/
def pySplitlines (s : PyStr) : List PyStr := splitlinesAux s []

/-- Python `str.lower()` (faithful on ASCII, which is all the script's
fixed strings use). -/
def pyLower (s : PyStr) : PyStr := s.map Char.toLower

/-- `CSV_HEADERS` from the script. -/
def CSV_HEADERS : List PyStr := ["Customer Name".toList, "Customer Address".toList]

/-- `lines = [line.strip() for line in raw_text.strip().splitlines() if line.strip()]`:
the non-empty stripped lines of the stripped input. -/
def linesOf (raw_text : PyStr) : List PyStr :=
  ((pySplitlines (pyStrip raw_text)).filter (fun line => pyStrip line ≠ [])).map pyStrip

/-- `normalize_raw_text`: normalize a raw model response into a single
line TSV/CSV string.  Direct translation of the Python source. -/
def normalize_raw_text (raw_text : PyStr) : PyStr :=
  if pyStrip raw_text = [] then []
  else
    match linesOf raw_text with
    | [] => []
    | l0 :: rest =>
      if (l0 :: rest).any (fun line => '\t' ∈ line) then
        List.intercalate ['\t'] ((l0 :: rest).filter (fun line => line ≠ []))
      else if 2 ≤ (l0 :: rest).length ∧ ',' ∉ l0 then
        l0 ++ '\t' :: List.intercalate [' '] rest
      else
        List.intercalate [','] ((l0 :: rest).map pyRstripCommas)

/-- States of the field tokenizer of Python's `csv.reader` (default
"excel" dialect: quote character `"`, `doublequote=True`,
`strict=False`, `skipinitialspace=False`). -/
inductive CsvState where
  | start
  | inField
  | inQuoted
  | quoteInQuoted
deriving DecidableEq

/-- Field tokenizer of Python's `csv.reader` on one line, for the
given delimiter.  `field` accumulates the current field.  The input
always comes from `normalize_raw_text`, which never produces line
boundary characters, so end-of-record handling and the 128 KiB field
size limit are not modelled. -/
def csvFieldsAux (d : Char) (st : CsvState) (field : List Char) : List Char → List PyStr
  | [] => [field]
  | c :: cs =>
    match st with
    | .start =>
        if c = '"' then csvFieldsAux d .inQuoted field cs
        else if c = d then field :: csvFieldsAux d .start [] cs
        else csvFieldsAux d .inField (field ++ [c]) cs
    | .inField =>
        if c = d then field :: csvFieldsAux d .start [] cs
        else csvFieldsAux d .inField (field ++ [c]) cs
    | .inQuoted =>
        if c = '"' then csvFieldsAux d .quoteInQuoted field cs
        else csvFieldsAux d .inQuoted (field ++ [c]) cs
    | .quoteInQuoted =>
        if c = '"' then csvFieldsAux d .inQuoted (field ++ ['"']) cs
        else if c = d then field :: csvFieldsAux d .start [] cs
        else csvFieldsAux d .inField (field ++ [c]) cs

/-- `csv.reader(io.StringIO(s), delimiter=d)` materialized as a row
list: the empty string yields no rows, any other (line-boundary free)
string yields the one row of its fields. -/
def csvReaderRows (d : Char) (s : PyStr) : List (List PyStr) :=
  if s = [] then [] else [csvFieldsAux d .start [] s]

/-- Python `a[-n:]` (used with `n = len(CSV_HEADERS) > 0`). -/
def pyTakeLast (n : Nat) (l : List PyStr) : List PyStr := l.drop (l.length - n)

/-- The candidate-selection loop of `parse_csv_row`: walk the rows,
skip empty rows and case-insensitive header echoes, and remember the
last `len(CSV_HEADERS)` columns of every row wide enough. -/
def selectCandidate : List (List PyStr) → Option (List PyStr) → Option (List PyStr)
  | [], acc => acc
  | row :: rest, acc =>
      let normalized := row.map pyStrip
      if normalized = [] then selectCandidate rest acc
      else if normalized.map pyLower = CSV_HEADERS.map pyLower then selectCandidate rest acc
      else if CSV_HEADERS.length ≤ normalized.length then
        selectCandidate rest (some (pyTakeLast CSV_HEADERS.length normalized))
      else selectCandidate rest acc

/-- A parsed row: the Python `Dict[str, str]` built by `parse_csv_row`,
kept in insertion (= schema) order. -/
abbrev Row := List (PyStr × PyStr)

/-- Python `row.get(key, default)` for such a dict. -/
def dictGet (row : Row) (key : PyStr) (dflt : PyStr) : PyStr :=
  match row.find? (fun p => p.1 = key) with
  | some p => p.2
  | none => dflt

/-- The tail of `parse_csv_row` after the delimiter has been chosen:
tokenize the normalized text, keep non-empty rows, select a candidate
and build the result dictionary. -/
def parseRows (delimiter : Char) (normalized_text : PyStr) : Option Row × Option PyStr :=
  let rows := (csvReaderRows delimiter normalized_text).filter (fun row => row ≠ [])
  if rows = [] then (none, some "no data rows".toList)
  else
    match selectCandidate rows none with
    | none => (none, some "no row with expected column count".toList)
    | some candidate =>
      if candidate.length ≠ CSV_HEADERS.length then
        (none, some ("expected ".toList ++ (toString CSV_HEADERS.length).toList ++
          " columns, got ".toList ++ (toString candidate.length).toList))
      else
        (some ((CSV_HEADERS.zip candidate).map (fun p => (p.1, pyStrip p.2))), none)

/-- `parse_csv_row`: parse a TSV/CSV-formatted row into a dictionary
keyed by `CSV_HEADERS`.  Returns the `(row, error)` pair of the Python
function. -/
def parse_csv_row (raw_text : PyStr) : Option Row × Option PyStr :=
  let normalized_text := normalize_raw_text raw_text
  if normalized_text = [] then (none, some "empty response".toList)
  else
    parseRows (if '\t' ∈ normalized_text then '\t' else ',') normalized_text

/-- The `for header in CSV_HEADERS` loop of `validate_csv_row`. -/
def validateAux : List PyStr → Row → Option PyStr
  | [], _ => none
  | header :: rest, row =>
      let value := pyStrip (dictGet row header [])
      if value ≠ [] ∧ (pyLower header).isPrefixOf (pyLower value) then
        some (header ++ " still contains placeholder text".toList)
      else validateAux rest row

/-- `validate_csv_row`: validate row contents and return an error
message if invalid. -/
def validate_csv_row (row : Row) : Option PyStr :=
  validateAux CSV_HEADERS row

/-- Python `x or default` for `Optional[str]` values (both `None` and
the empty string are falsy). -/
def pyOrDefault (o : Option PyStr) (dflt : PyStr) : PyStr :=
  match o with
  | none => dflt
  | some s => if s = [] then dflt else s

/-- `CSV_PROMPT` from the script (the f-string, `.strip()`-ed). -/
def CSV_PROMPT : PyStr :=
  pyStrip ("\nOutput one tab-separated row with these columns: ".toList ++
    List.intercalate ", ".toList CSV_HEADERS ++ ".\n".toList)

/-- The augmented prompt built for attempts `>= 1`. -/
def retryPrompt (last_error : Option PyStr) : PyStr :=
  CSV_PROMPT ++ "\n\n".toList ++
  "The previous response was invalid because ".toList ++
  pyOrDefault last_error "it could not be parsed".toList ++
  ". Respond again with only one line containing exactly ".toList ++
  (toString CSV_HEADERS.length).toList ++
  " tab-separated fields in the specified order.".toList

/-- The `ValueError` message raised when the attempt budget is
exhausted (`{last_error}` formats `None` as `"None"`). -/
def failMessage (max_attempts : Int) (last_error : Option PyStr) : PyStr :=
  "Failed to obtain valid CSV row after ".toList ++
  (toString max_attempts).toList ++ " attempts: ".toList ++
  (match last_error with
   | none => "None".toList
   | some s => s)

/-- How `request_csv_row` terminates abnormally: either its own
`ValueError` (attempt budget exhausted), or an exception raised by the
inference call `model.query`, which propagates uncaught. -/
inductive RunErr (ε : Type) where
  | valueError (msg : PyStr)
  | raised (e : ε)
deriving DecidableEq

/-- The `for attempt in range(max_attempts)` loop of
`request_csv_row`.  `model` maps an attempt index and prompt either to
a raised exception or to the `answer` string of the inference result
(the script reads `csv_query_result.get("answer", "")`).  Returns the
outcome together with the number of `model.query` calls made.  `fuel`
is the number of remaining iterations, `attempt` the Python loop
variable. -/
def request_aux (model : Nat → PyStr → Except ε PyStr) (max_attempts : Int) :
    Nat → Nat → Option PyStr → Except (RunErr ε) (Row × PyStr) × Nat
  | 0, _attempt, last_error =>
      (.error (.valueError (failMessage max_attempts last_error)), 0)
  | fuel + 1, attempt, last_error =>
      let current_prompt := if 0 < attempt then retryPrompt last_error else CSV_PROMPT
      match model attempt current_prompt with
      | .error e => (.error (.raised e), 1)
      | .ok answer =>
        let raw_csv := pyStrip answer
        match parse_csv_row raw_csv with
        | (some parsed_row, parse_error) =>
            if parsed_row ≠ [] then
              match validate_csv_row parsed_row with
              | none => (.ok (parsed_row, raw_csv), 1)
              | some validation_error =>
                  let r := request_aux model max_attempts fuel (attempt + 1) (some validation_error)
                  (r.1, r.2 + 1)
            else
              let r := request_aux model max_attempts fuel (attempt + 1)
                (some (pyOrDefault parse_error "unknown parsing error".toList))
              (r.1, r.2 + 1)
        | (none, parse_error) =>
            let r := request_aux model max_attempts fuel (attempt + 1)
              (some (pyOrDefault parse_error "unknown parsing error".toList))
            (r.1, r.2 + 1)

/-- `request_csv_row`: request TSV-formatted data with retries.
Python's `range(max_attempts)` iterates `max(0, max_attempts)` times,
i.e. `max_attempts.toNat` times. -/
def request_csv_row (model : Nat → PyStr → Except ε PyStr) (max_attempts : Int) :
    Except (RunErr ε) (Row × PyStr) × Nat :=
  request_aux model max_attempts max_attempts.toNat 0 none

/-- The failure reason one attempt records for an answer string, or
`none` when the attempt succeeds: exactly the `last_error` updates of
the loop body of `request_csv_row`. -/
def attemptFailReason (answer : PyStr) : Option PyStr :=
  match parse_csv_row (pyStrip answer) with
  | (some parsed_row, parse_error) =>
      if parsed_row ≠ [] then validate_csv_row parsed_row
      else some (pyOrDefault parse_error "unknown parsing error".toList)
  | (none, parse_error) =>
      some (pyOrDefault parse_error "unknown parsing error".toList)

/-! ## Properties of the string primitives -/

/-- `s` has no leading and no trailing whitespace. -/
def NoEdgeSpace (s : PyStr) : Prop :=
  (∀ c, s.head? = some c → pyIsSpace c = false) ∧
  (∀ c, s.getLast? = some c → pyIsSpace c = false)

theorem rstrip_eq_rdropWhile (s : PyStr) : rstrip s = s.rdropWhile pyIsSpace := rfl

theorem lstrip_eq_self_iff {s : PyStr} :
    lstrip s = s ↔ ∀ c, s.head? = some c → pyIsSpace c = false := by
  unfold lstrip
  rw [List.dropWhile_eq_self_iff]
  constructor
  · intro h c hc
    cases s with
    | nil => simp at hc
    | cons a t =>
      simp only [List.head?_cons, Option.some.injEq] at hc
      subst hc
      simpa using h (by simp)
  · intro h hl
    cases s with
    | nil => simp at hl
    | cons a t => simpa using h a rfl

theorem rstrip_eq_self_iff {s : PyStr} :
    rstrip s = s ↔ ∀ c, s.getLast? = some c → pyIsSpace c = false := by
  rw [rstrip_eq_rdropWhile, List.rdropWhile_eq_self_iff]
  constructor
  · intro h c hc
    cases hs : s.getLast?.isSome
    · simp [hc] at hs
    · have hne : s ≠ [] := by
        intro h0; subst h0; simp at hc
      have := h hne
      rw [List.getLast?_eq_getLast s hne] at hc
      simp only [Option.some.injEq] at hc
      subst hc
      simpa using this
  · intro h hne
    have := h (s.getLast hne) (List.getLast?_eq_getLast s hne)
    simpa using this

theorem pyStrip_eq_self_iff {s : PyStr} : pyStrip s = s ↔ NoEdgeSpace s := by
  constructor
  · intro h
    have hslen : (lstrip s).length ≤ s.length :=
      ((List.dropWhile_suffix pyIsSpace : lstrip s <:+ s)).length_le
    have hrlen : (rstrip (lstrip s)).length ≤ (lstrip s).length :=
      (List.rdropWhile_prefix pyIsSpace (lstrip s)).length_le
    have hlen : (rstrip (lstrip s)).length = s.length := congrArg List.length h
    have hlenls : (lstrip s).length = s.length := by omega
    have hls : lstrip s = s :=
      (List.dropWhile_suffix pyIsSpace).eq_of_length hlenls
    have hrs : rstrip s = s := by
      have := h
      rwa [pyStrip, hls] at this
    exact ⟨lstrip_eq_self_iff.mp hls, rstrip_eq_self_iff.mp hrs⟩
  · rintro ⟨h1, h2⟩
    have hls : lstrip s = s := lstrip_eq_self_iff.mpr h1
    have hrs : rstrip s = s := rstrip_eq_self_iff.mpr h2
    rw [pyStrip, hls, hrs]

theorem pyStrip_idem (s : PyStr) : pyStrip (pyStrip s) = pyStrip s := by
  rw [pyStrip_eq_self_iff]
  constructor
  · intro c hc
    have hne : pyStrip s ≠ [] := by
      intro h0; rw [h0] at hc; simp at hc
    have hpre : pyStrip s <+: lstrip s := by
      simpa [pyStrip, rstrip_eq_rdropWhile] using List.rdropWhile_prefix pyIsSpace (lstrip s)
    have hlne : lstrip s ≠ [] := by
      intro h0
      rcases hpre with ⟨t, ht⟩
      rw [h0] at ht
      exact hne (List.append_eq_nil.mp ht).1
    have hhead : (pyStrip s).head hne = (lstrip s).head hlne := hpre.head hne
    have hnot := List.head_dropWhile_not pyIsSpace s (by simpa [lstrip] using hlne)
    rw [List.head?_eq_head hne] at hc
    simp only [Option.some.injEq] at hc
    subst hc
    rw [hhead]
    simpa [lstrip] using hnot
  · intro c hc
    have hne : pyStrip s ≠ [] := by
      intro h0; rw [h0] at hc; simp at hc
    have hnot := List.rdropWhile_last_not pyIsSpace (lstrip s)
      (by simpa [pyStrip, rstrip_eq_rdropWhile] using hne)
    rw [List.getLast?_eq_getLast _ hne] at hc
    simp only [Option.some.injEq] at hc
    subst hc
    simpa [pyStrip, rstrip_eq_rdropWhile] using hnot

theorem pyStrip_sublist (s : PyStr) : List.Sublist (pyStrip s) s :=
  ((List.rdropWhile_prefix pyIsSpace (lstrip s)).sublist).trans
    (List.dropWhile_suffix pyIsSpace).sublist

theorem pyRstripCommas_sublist (s : PyStr) : List.Sublist (pyRstripCommas s) s :=
  (List.rdropWhile_prefix (fun c => c = ',') s).sublist

theorem splitlinesAux_cons_nb {c : Char} (hc : isLineBoundary c = false)
    (cs : List Char) (acc : List Char) :
    splitlinesAux (c :: cs) acc = splitlinesAux cs (c :: acc) := by
  have hr : c ≠ '\r' := by rintro rfl; simp [isLineBoundary] at hc
  cases cs with
  | nil => simp [splitlinesAux, hc]
  | cons d ds =>
    rw [splitlinesAux]
    · simp [hc]
    · intro cs1 h1 _
      exact hr h1

theorem splitlinesAux_nb {s : PyStr} (h : ∀ c ∈ s, isLineBoundary c = false) :
    ∀ acc, splitlinesAux s acc =
      if acc.reverse ++ s = [] then [] else [acc.reverse ++ s] := by
  induction s with
  | nil =>
    intro acc
    simp [splitlinesAux]
  | cons c cs ih =>
    intro acc
    rw [splitlinesAux_cons_nb (h c (by simp))]
    rw [ih (fun x hx => h x (by simp [hx]))]
    simp

theorem pySplitlines_nb {s : PyStr} (hne : s ≠ [])
    (h : ∀ c ∈ s, isLineBoundary c = false) : pySplitlines s = [s] := by
  unfold pySplitlines
  rw [splitlinesAux_nb h]
  simp [hne]

theorem mem_splitlinesAux_nb {s acc : List Char}
    (hacc : ∀ x ∈ acc, isLineBoundary x = false) :
    ∀ l ∈ splitlinesAux s acc, ∀ c ∈ l, isLineBoundary c = false := by
  induction s, acc using splitlinesAux.induct with
  | case1 =>
    simp [splitlinesAux]
  | case2 acc hne =>
    simp only [splitlinesAux, if_neg hne]
    intro l hl c hc
    simp only [List.mem_singleton] at hl
    subst hl
    exact hacc c (List.mem_reverse.mp hc)
  | case3 cs acc ih =>
    rw [splitlinesAux]
    intro l hl c hc
    rcases List.mem_cons.mp hl with h | h
    · subst h
      exact hacc c (List.mem_reverse.mp hc)
    · exact ih (by simp) l h c hc
  | case4 c cs acc hpat hb ih =>
    rw [splitlinesAux]
    · rw [if_pos hb]
      intro l hl x hx
      rcases List.mem_cons.mp hl with h | h
      · subst h
        exact hacc x (List.mem_reverse.mp hx)
      · exact ih (by simp) l h x hx
    · exact hpat
  | case5 c cs acc hpat hb ih =>
    have hc : isLineBoundary c = false := by simpa using hb
    rw [splitlinesAux_cons_nb hc]
    refine ih ?_
    intro x hx
    rcases List.mem_cons.mp hx with h | h
    · subst h; exact hc
    · exact hacc x h

theorem mem_pySplitlines_nb {s : PyStr} :
    ∀ l ∈ pySplitlines s, ∀ c ∈ l, isLineBoundary c = false :=
  mem_splitlinesAux_nb (by simp)

theorem intercalate_single (sep : PyStr) (x : PyStr) :
    List.intercalate sep [x] = x := by
  simp [List.intercalate]

theorem intercalate_cons₂ (sep : PyStr) (x y : PyStr) (r : List PyStr) :
    List.intercalate sep (x :: y :: r) = x ++ sep ++ List.intercalate sep (y :: r) := by
  simp [List.intercalate, List.intersperse]

theorem mem_intercalate_of_mem (sep : PyStr) {L : List PyStr} {l : PyStr} {c : Char}
    (hl : l ∈ L) (hc : c ∈ l) : c ∈ List.intercalate sep L := by
  induction L with
  | nil => simp at hl
  | cons x r ih =>
    cases r with
    | nil =>
      simp only [List.mem_singleton] at hl
      subst hl
      simpa [intercalate_single] using hc
    | cons y rr =>
      rw [intercalate_cons₂]
      rcases List.mem_cons.mp hl with h | h
      · subst h; simp [hc]
      · simp [ih h]

theorem mem_intercalate_of_mem_sep (sep : PyStr) {L : List PyStr} {c : Char}
    (hL : 2 ≤ L.length) (hc : c ∈ sep) : c ∈ List.intercalate sep L := by
  match L with
  | x :: y :: r =>
    rw [intercalate_cons₂]
    simp [hc]

theorem mem_intercalate_cases (sep : PyStr) {L : List PyStr} {c : Char}
    (h : c ∈ List.intercalate sep L) : (∃ l ∈ L, c ∈ l) ∨ c ∈ sep := by
  induction L with
  | nil => simp [List.intercalate] at h
  | cons x r ih =>
    cases r with
    | nil =>
      rw [intercalate_single] at h
      exact Or.inl ⟨x, by simp, h⟩
    | cons y rr =>
      rw [intercalate_cons₂] at h
      rcases List.mem_append.mp h with h1 | h1
      · rcases List.mem_append.mp h1 with h2 | h2
        · exact Or.inl ⟨x, by simp, h2⟩
        · exact Or.inr h2
      · rcases ih h1 with ⟨l, hl, hcl⟩ | h2
        · exact Or.inl ⟨l, by simp [hl], hcl⟩
        · exact Or.inr h2

theorem intercalate_ne_nil (sep : PyStr) {L : List PyStr} (hL : L ≠ [])
    (h : ∀ l ∈ L, l ≠ []) : List.intercalate sep L ≠ [] := by
  match L with
  | x :: r =>
    cases r with
    | nil => rw [intercalate_single]; exact h x (by simp)
    | cons y rr =>
      rw [intercalate_cons₂]
      simp only [ne_eq, List.append_assoc, List.append_eq_nil]
      intro hx
      exact h x (by simp) hx.1

theorem head?_intercalate_cons (sep : PyStr) (x : PyStr) (r : List PyStr)
    (hx : x ≠ []) : (List.intercalate sep (x :: r)).head? = x.head? := by
  cases r with
  | nil => rw [intercalate_single]
  | cons y rr =>
    rw [intercalate_cons₂, List.append_assoc]
    match x, hx with
    | a :: t, _ => simp

theorem getLast?_intercalate_cons (sep : PyStr) (x : PyStr) (r : List PyStr)
    (h : ∀ l ∈ x :: r, l ≠ []) :
    (List.intercalate sep (x :: r)).getLast? = ((x :: r).getLast (by simp)).getLast? := by
  induction r generalizing x with
  | nil => rw [intercalate_single]; rfl
  | cons y rr ih =>
    rw [intercalate_cons₂, List.append_assoc]
    have hrec := ih y (fun l hl => h l (by simpa using Or.inr hl))
    have hne : List.intercalate sep (y :: rr) ≠ [] :=
      intercalate_ne_nil sep (by simp) (fun l hl => h l (by simpa using Or.inr hl))
    rw [List.getLast?_append_of_ne_nil x
        (by simp only [ne_eq, List.append_eq_nil, not_and]; intro _; exact hne),
      List.getLast?_append_of_ne_nil sep hne, hrec]
    simp [List.getLast_cons]

/-! ## Branch characterizations of `normalize_raw_text` -/

theorem linesOf_eq_nil_of_strip_nil {raw : PyStr} (h : pyStrip raw = []) :
    linesOf raw = [] := by
  unfold linesOf
  rw [h]
  simp [pySplitlines, splitlinesAux]

theorem strip_ne_nil_of_linesOf_ne_nil {raw : PyStr} (h : linesOf raw ≠ []) :
    pyStrip raw ≠ [] :=
  fun h0 => h (linesOf_eq_nil_of_strip_nil h0)

theorem linesOf_mem {raw l : PyStr} (hl : l ∈ linesOf raw) :
    l ≠ [] ∧ pyStrip l = l ∧ ∀ c ∈ l, isLineBoundary c = false := by
  unfold linesOf at hl
  rcases List.mem_map.mp hl with ⟨line, hline, rfl⟩
  rcases List.mem_filter.mp hline with ⟨hmem, hcond⟩
  refine ⟨by simpa using hcond, pyStrip_idem line, ?_⟩
  intro c hc
  exact mem_pySplitlines_nb line hmem c ((pyStrip_sublist line).subset hc)

theorem normalize_eq_of_tab {raw : PyStr}
    (h : ∃ l ∈ linesOf raw, '\t' ∈ l) :
    normalize_raw_text raw = List.intercalate ['\t'] (linesOf raw) := by
  obtain ⟨l, hl, htab⟩ := h
  have hne : linesOf raw ≠ [] := fun h0 => by simp [h0] at hl
  have hstrip := strip_ne_nil_of_linesOf_ne_nil hne
  unfold normalize_raw_text
  rw [if_neg hstrip]
  match heq : linesOf raw with
  | [] => exact absurd heq hne
  | l0 :: rest =>
    rw [heq] at hl
    dsimp only
    rw [if_pos]
    · congr 1
      rw [List.filter_eq_self]
      intro x hx
      simpa using (linesOf_mem (heq ▸ hx)).1
    · rw [List.any_eq_true]
      exact ⟨l, hl, by simpa using htab⟩

theorem normalize_eq_branch3 {raw l0 : PyStr} {rest : List PyStr}
    (heq : linesOf raw = l0 :: rest)
    (hnotab : ∀ l ∈ linesOf raw, '\t' ∉ l)
    (hrest : rest ≠ []) (hcomma : ',' ∉ l0) :
    normalize_raw_text raw = l0 ++ '\t' :: List.intercalate [' '] rest := by
  have hstrip : pyStrip raw ≠ [] := strip_ne_nil_of_linesOf_ne_nil (by rw [heq]; simp)
  unfold normalize_raw_text
  rw [if_neg hstrip]
  rw [heq] at hnotab ⊢
  dsimp only
  rw [if_neg, if_pos]
  · constructor
    · cases rest with
      | nil => exact absurd rfl hrest
      | cons y rr => simp
    · exact hcomma
  · rw [List.any_eq_true]
    rintro ⟨x, hx, hx2⟩
    exact hnotab x hx (by simpa using hx2)

theorem pyStrip_intercalate_eq_self (sep : PyStr) {L : List PyStr} (hL : L ≠ [])
    (h : ∀ l ∈ L, l ≠ [] ∧ pyStrip l = l) :
    pyStrip (List.intercalate sep L) = List.intercalate sep L := by
  match L with
  | x :: r =>
    rw [pyStrip_eq_self_iff]
    constructor
    · intro c hc
      rw [head?_intercalate_cons sep x r (h x (by simp)).1] at hc
      have hx := (pyStrip_eq_self_iff.mp (h x (by simp)).2).1
      exact hx c hc
    · intro c hc
      rw [getLast?_intercalate_cons sep x r (fun l hl => (h l hl).1)] at hc
      have hmem : (x :: r).getLast (by simp) ∈ x :: r := List.getLast_mem _
      have hx := (pyStrip_eq_self_iff.mp (h _ hmem).2).2
      exact hx c hc

theorem linesOf_intercalate_tab {L : List PyStr} (hL : L ≠ [])
    (h : ∀ l ∈ L, l ≠ [] ∧ pyStrip l = l ∧ ∀ c ∈ l, isLineBoundary c = false) :
    linesOf (List.intercalate ['\t'] L) = [List.intercalate ['\t'] L] := by
  have hstrip : pyStrip (List.intercalate ['\t'] L) = List.intercalate ['\t'] L :=
    pyStrip_intercalate_eq_self ['\t'] hL (fun l hl => ⟨(h l hl).1, (h l hl).2.1⟩)
  have hne : List.intercalate ['\t'] L ≠ [] :=
    intercalate_ne_nil ['\t'] hL (fun l hl => (h l hl).1)
  have hnb : ∀ c ∈ List.intercalate ['\t'] L, isLineBoundary c = false := by
    intro c hc
    rcases mem_intercalate_cases ['\t'] hc with ⟨l, hl, hcl⟩ | hsep
    · exact (h l hl).2.2 c hcl
    · simp only [List.mem_singleton] at hsep
      subst hsep
      decide
  unfold linesOf
  rw [hstrip, pySplitlines_nb hne hnb]
  simp [hstrip, hne]

theorem normalize_of_tab_joined {L : List PyStr} (hL : L ≠ [])
    (h : ∀ l ∈ L, l ≠ [] ∧ pyStrip l = l ∧ ∀ c ∈ l, isLineBoundary c = false)
    (htab : '\t' ∈ List.intercalate ['\t'] L) :
    normalize_raw_text (List.intercalate ['\t'] L) = List.intercalate ['\t'] L := by
  have hlines := linesOf_intercalate_tab hL h
  rw [normalize_eq_of_tab ⟨List.intercalate ['\t'] L, by rw [hlines]; simp, htab⟩,
    hlines, intercalate_single]

/-- Claim C9 (amended): `normalize_raw_text` is idempotent on every
input one of whose trimmed, non-empty lines still contains a tab
character (so that the tab-join branch applies). -/
theorem claim_C9 (x : PyStr) (h : ∃ l ∈ linesOf x, '\t' ∈ l) :
    normalize_raw_text (normalize_raw_text x) = normalize_raw_text x := by
  obtain ⟨l, hl, htab⟩ := h
  have hL : linesOf x ≠ [] := fun h0 => by simp [h0] at hl
  have hprops : ∀ m ∈ linesOf x, m ≠ [] ∧ pyStrip m = m ∧
      ∀ c ∈ m, isLineBoundary c = false := fun m hm => linesOf_mem hm
  rw [normalize_eq_of_tab ⟨l, hl, htab⟩]
  exact normalize_of_tab_joined hL hprops (mem_intercalate_of_mem ['\t'] hl htab)

/-- Claim C9, as frozen, is false: this input contains a tab character
(stripped away during line splitting), yet normalization is not
idempotent on it — the first pass yields `"a,b,, "` and the second
`"a,b"`. -/
theorem claim_C9_counterexample :
    '\t' ∈ "\ta,b\n, ,".toList ∧
    normalize_raw_text (normalize_raw_text "\ta,b\n, ,".toList) ≠
      normalize_raw_text "\ta,b\n, ,".toList := by
  constructor
  · decide
  · decide

/-- Witness for the amended claim C9 at the concrete input
`"a\tb\nc"`. -/
theorem claim_C9_witness :
    normalize_raw_text (normalize_raw_text "a\tb\nc".toList) =
      normalize_raw_text "a\tb\nc".toList :=
  claim_C9 "a\tb\nc".toList ⟨"a\tb".toList, by decide, by decide⟩

/-! ## Claim C2: the normalization cascade -/

/-- Modelled from the spec's words for claim C2: trim and split into
non-empty trimmed lines (no lines yields the empty string); if any line
contains a tab, join all lines with tabs; otherwise if there are at
least two lines and the first contains no comma, return first line,
tab, space-join of the rest; otherwise join the lines, trailing commas
stripped, with commas. -/
def normalizeSpec (raw : PyStr) : PyStr :=
  let lines := ((pySplitlines (pyStrip raw)).map pyStrip).filter (fun l => l ≠ [])
  if lines = [] then []
  else if lines.any (fun l => '\t' ∈ l) then List.intercalate ['\t'] lines
  else if 2 ≤ lines.length ∧ ',' ∉ lines.headI then
    lines.headI ++ '\t' :: List.intercalate [' '] lines.tail
  else List.intercalate [','] (lines.map pyRstripCommas)

theorem linesOf_eq_filter_map (raw : PyStr) :
    linesOf raw = ((pySplitlines (pyStrip raw)).map pyStrip).filter (fun l => l ≠ []) := by
  unfold linesOf
  rw [List.filter_map]
  rfl

/-- Claim C2: `normalize_raw_text` implements exactly the priority
cascade stated by the spec (and, being a total Lean function, it never
fails). -/
theorem claim_C2 (raw : PyStr) : normalize_raw_text raw = normalizeSpec raw := by
  unfold normalize_raw_text normalizeSpec
  rw [← linesOf_eq_filter_map]
  by_cases hstrip : pyStrip raw = []
  · rw [if_pos hstrip, linesOf_eq_nil_of_strip_nil hstrip]
    simp
  · rw [if_neg hstrip]
    match heq : linesOf raw with
    | [] => simp
    | l0 :: rest =>
      dsimp only
      simp only [List.headI_cons, List.tail_cons, ne_eq, List.cons_ne_nil, not_false_eq_true,
        if_false]
      by_cases htab : (l0 :: rest).any (fun line => '\t' ∈ line)
      · rw [if_pos htab, if_pos htab]
        congr 1
        rw [List.filter_eq_self]
        intro x hx
        simpa using (linesOf_mem (heq ▸ hx)).1
      · rw [if_neg htab, if_neg htab]

/-! ## Claim C5: placeholder validation -/

/-- Modelled from the spec's words for claim C5: a field offends when
its trimmed value is non-empty and its lowercase form starts with the
lowercase field name. -/
def offendsB (row : Row) (header : PyStr) : Bool :=
  pyStrip (dictGet row header []) ≠ [] &&
    (pyLower header).isPrefixOf (pyLower (pyStrip (dictGet row header [])))

/-- Modelled from the spec's words for claim C5: report
`"<field> still contains placeholder text"` for the first offending
field in schema order, and no error otherwise. -/
def validateSpec (row : Row) : Option PyStr :=
  match CSV_HEADERS.find? (fun h => offendsB row h) with
  | some h => some (h ++ " still contains placeholder text".toList)
  | none => none

theorem validateAux_eq_find (hs : List PyStr) (row : Row) :
    validateAux hs row =
      match hs.find? (fun h => offendsB row h) with
      | some h => some (h ++ " still contains placeholder text".toList)
      | none => none := by
  induction hs with
  | nil => rfl
  | cons h rest ih =>
    have hiff : offendsB row h = true ↔
        (pyStrip (dictGet row h []) ≠ [] ∧
          (pyLower h).isPrefixOf (pyLower (pyStrip (dictGet row h [])))) := by
      simp [offendsB]
    rw [validateAux, List.find?]
    by_cases hoff : offendsB row h = true
    · rw [hoff, if_pos (hiff.mp hoff)]
    · rw [Bool.not_eq_true] at hoff
      rw [hoff, if_neg (fun hcond => by rw [hiff.mpr hcond] at hoff; cases hoff), ih]

/-- Claim C5: `validate_csv_row` reports exactly the spec's
placeholder-echo condition, for the first offending field in schema
order; in particular `"Customer Name: Jane Doe"` fails for field
`"Customer Name"` while `"Jane Doe"` passes. -/
theorem claim_C5 :
    (∀ row : Row, validate_csv_row row = validateSpec row) ∧
    validate_csv_row [("Customer Name".toList, "Customer Name: Jane Doe".toList),
        ("Customer Address".toList, "5 Oak Ave".toList)] =
      some "Customer Name still contains placeholder text".toList ∧
    validate_csv_row [("Customer Name".toList, "Jane Doe".toList),
        ("Customer Address".toList, "5 Oak Ave".toList)] = none := by
  refine ⟨fun row => ?_, by decide, by decide⟩
  rw [validate_csv_row, validateSpec, validateAux_eq_find]

/-! ## Claims C6 and C8: parse result invariants -/

theorem pyTakeLast_length {n : Nat} {l : List PyStr} (h : n ≤ l.length) :
    (pyTakeLast n l).length = n := by
  simp only [pyTakeLast, List.length_drop]
  omega

theorem selectCandidate_length :
    ∀ (rows : List (List PyStr)) (acc : Option (List PyStr)),
      (∀ c, acc = some c → c.length = CSV_HEADERS.length) →
      ∀ cand, selectCandidate rows acc = some cand → cand.length = CSV_HEADERS.length := by
  intro rows
  induction rows with
  | nil =>
    intro acc hacc cand hc
    exact hacc cand hc
  | cons row rest ih =>
    intro acc hacc cand hc
    simp only [selectCandidate] at hc
    split at hc
    · exact ih acc hacc cand hc
    · split at hc
      · exact ih acc hacc cand hc
      · split at hc
        · refine ih _ ?_ cand hc
          intro c hcEq
          simp only [Option.some.injEq] at hcEq
          subst hcEq
          exact pyTakeLast_length (by assumption)
        · exact ih acc hacc cand hc

theorem parseRows_keys_trimmed (d : Char) (s : PyStr) (row : Row)
    (h : (parseRows d s).1 = some row) :
    row.map Prod.fst = CSV_HEADERS ∧ ∀ p ∈ row, pyStrip p.2 = p.2 := by
  simp only [parseRows] at h
  split at h
  · simp at h
  · split at h
    · simp at h
    · rename_i candidate heq
      split at h
      · simp at h
      · rename_i hlen
        rw [Classical.not_not] at hlen
        simp only [Option.some.injEq] at h
        subst h
        constructor
        · rw [List.map_map]
          have hcomp : (Prod.fst ∘ fun p : PyStr × PyStr => (p.1, pyStrip p.2)) = Prod.fst := rfl
          rw [hcomp]
          exact List.map_fst_zip CSV_HEADERS candidate (le_of_eq hlen.symm)
        · intro p hp
          rcases List.mem_map.mp hp with ⟨q, _, rfl⟩
          exact pyStrip_idem q.2

/-- Claim C6: whenever `parse_csv_row` succeeds, the returned row's
keys are exactly `CSV_HEADERS` in order, and every value is trimmed. -/
theorem claim_C6 (raw : PyStr) (row : Row) (h : (parse_csv_row raw).1 = some row) :
    row.map Prod.fst = CSV_HEADERS ∧ ∀ p ∈ row, pyStrip p.2 = p.2 := by
  unfold parse_csv_row at h
  dsimp only at h
  split at h
  · simp at h
  · exact parseRows_keys_trimmed _ _ row h

/-- Witness for claim C6 at a concrete successfully parsed input. -/
theorem claim_C6_witness :
    ([("Customer Name".toList, "Jane Doe".toList),
      ("Customer Address".toList, "5 Oak Ave".toList)] : Row).map Prod.fst = CSV_HEADERS ∧
    ∀ p ∈ ([("Customer Name".toList, "Jane Doe".toList),
      ("Customer Address".toList, "5 Oak Ave".toList)] : Row), pyStrip p.2 = p.2 :=
  claim_C6 "Jane Doe\t5 Oak Ave".toList
    [("Customer Name".toList, "Jane Doe".toList),
     ("Customer Address".toList, "5 Oak Ave".toList)] (by decide)

/-- Recognizes the defensive `"expected K columns, got J"` error of
`parse_csv_row` (and no other error message the function produces). -/
def expectedColumnsError (o : Option PyStr) : Bool :=
  match o with
  | none => false
  | some s => "expected ".toList.isPrefixOf s

theorem parseRows_no_expected_error (d : Char) (s : PyStr) :
    expectedColumnsError (parseRows d s).2 = false := by
  simp only [parseRows]
  split
  · decide
  · split
    · decide
    · rename_i candidate heq
      have hlen := selectCandidate_length _ none (by simp) candidate heq
      rw [if_neg (by simp [hlen])]
      rfl

/-- Claim C8: the defensive `"expected K columns, got J"` branch of
`parse_csv_row` is unreachable — no input ever produces that error. -/
theorem claim_C8 (raw : PyStr) : expectedColumnsError (parse_csv_row raw).2 = false := by
  unfold parse_csv_row
  dsimp only
  split
  · decide
  · exact parseRows_no_expected_error _ _

/-! ## Claims C1, C7, C10: the retry loop -/

/-- Claim C10: calling `request_csv_row` with a non-positive attempt
budget makes no inference call and raises
`ValueError("Failed to obtain valid CSV row after {k} attempts: None")`
(for `k = 0`, exactly the message
`"Failed to obtain valid CSV row after 0 attempts: None"`). -/
theorem claim_C10 {ε : Type} (k : Int) (hk : k ≤ 0) (model : Nat → PyStr → Except ε PyStr) :
    request_csv_row model k =
      (.error (.valueError ("Failed to obtain valid CSV row after ".toList ++
        (toString k).toList ++ " attempts: None".toList)), 0) := by
  have h0 : k.toNat = 0 := Int.toNat_of_nonpos hk
  rw [request_csv_row, h0, request_aux, failMessage]
  simp

/-- Witness for claim C10 at `max_attempts = 0` with a stub model. -/
theorem claim_C10_witness :
    request_csv_row (fun _ _ => (Except.ok [] : Except Unit PyStr)) 0 =
      (.error (.valueError "Failed to obtain valid CSV row after 0 attempts: None".toList), 0) := by
  have h := @claim_C10 Unit 0 (le_refl 0) (fun _ _ => Except.ok [])
  exact h.trans (by rfl)

theorem request_aux_step_fail {ε : Type} (model : Nat → PyStr → Except ε PyStr)
    (K : Int) (fuel attempt : Nat) (last_error : Option PyStr) {answer r : PyStr}
    (hmodel : ∀ p, model attempt p = .ok answer)
    (hr : attemptFailReason answer = some r) :
    request_aux model K (fuel + 1) attempt last_error =
      ((request_aux model K fuel (attempt + 1) (some r)).1,
       (request_aux model K fuel (attempt + 1) (some r)).2 + 1) := by
  unfold attemptFailReason at hr
  rcases hp : parse_csv_row (pyStrip answer) with ⟨o, perr⟩
  rw [hp] at hr
  cases o with
  | none =>
    simp only [Option.some.injEq] at hr
    simp only [request_aux, hmodel, hp, hr]
  | some parsed_row =>
    dsimp only at hr
    by_cases hrow : parsed_row ≠ []
    · rw [if_pos hrow] at hr
      simp only [request_aux, hmodel, hp, if_pos hrow, hr]
    · rw [if_neg hrow] at hr
      simp only [Option.some.injEq] at hr
      simp only [request_aux, hmodel, hp, if_neg hrow, hr]

theorem request_aux_raises {ε : Type} (model : Nat → PyStr → Except ε PyStr) (K : Int) :
    ∀ (j fuel attempt : Nat) (last_error : Option PyStr) (e : ε) (answers : Nat → PyStr),
      j < fuel →
      (∀ i, i < j → ∀ p, model (attempt + i) p = .ok (answers (attempt + i))) →
      (∀ i, i < j → (attemptFailReason (answers (attempt + i))).isSome) →
      (∀ p, model (attempt + j) p = .error e) →
      request_aux model K fuel attempt last_error = (.error (.raised e), j + 1) := by
  intro j
  induction j with
  | zero =>
    intro fuel attempt last_error e answers hj hok hfail hraise
    obtain ⟨f, rfl⟩ : ∃ f, fuel = f + 1 := ⟨fuel - 1, by omega⟩
    have hra : ∀ p, model attempt p = .error e := by simpa using hraise
    simp only [request_aux, hra]
  | succ n ih =>
    intro fuel attempt last_error e answers hj hok hfail hraise
    obtain ⟨f, rfl⟩ : ∃ f, fuel = f + 1 := ⟨fuel - 1, by omega⟩
    obtain ⟨r, hr⟩ := Option.isSome_iff_exists.mp
      (by simpa using hfail 0 (by omega))
    rw [request_aux_step_fail model K f attempt last_error
      (by simpa using hok 0 (by omega)) hr]
    rw [ih f (attempt + 1) (some r) e answers (by omega)
      (fun i hi p => by
        have h2 := hok (i + 1) (by omega) p
        have h3 : attempt + (i + 1) = attempt + 1 + i := by omega
        rwa [h3] at h2)
      (fun i hi => by
        have h2 := hfail (i + 1) (by omega)
        have h3 : attempt + (i + 1) = attempt + 1 + i := by omega
        rwa [h3] at h2)
      (fun p => by
        have h2 := hraise p
        have h3 : attempt + (n + 1) = attempt + 1 + n := by omega
        rwa [h3] at h2)]

/-- Claim C7: if the inference call raises on some attempt `j` inside
the budget (all earlier attempts having failed parse or validation),
the exception propagates out of `request_csv_row` at once: the model
is called exactly `j + 1` times, no further retry runs, and no
exhaustion `ValueError` is produced. -/
theorem claim_C7 {ε : Type} (K : Int) (j : Nat) (hj : j < K.toNat)
    (model : Nat → PyStr → Except ε PyStr) (answers : Nat → PyStr) (e : ε)
    (hok : ∀ i, i < j → ∀ p, model i p = .ok (answers i))
    (hfail : ∀ i, i < j → (attemptFailReason (answers i)).isSome)
    (hraise : ∀ p, model j p = .error e) :
    request_csv_row model K = (.error (.raised e), j + 1) := by
  rw [request_csv_row]
  exact request_aux_raises model K j K.toNat 0 none e answers hj
    (fun i hi p => by simpa using hok i hi p)
    (fun i hi => by simpa using hfail i hi)
    (fun p => by simpa using hraise p)

/-- Witness for claim C7: the first two answers fail parsing, the
third call raises; the run stops after exactly 3 calls with the
propagated exception. -/
theorem claim_C7_witness :
    request_csv_row (fun i _ => if i < 2 then (Except.ok [] : Except Unit PyStr)
        else Except.error ()) 5 = (.error (.raised ()), 3) :=
  claim_C7 5 2 (by decide)
    (fun i _ => if i < 2 then Except.ok [] else Except.error ())
    (fun _ => []) ()
    (fun i hi p => by simp [hi])
    (fun i _ => by
      change (attemptFailReason ([] : PyStr)).isSome = true
      decide)
    (fun p => rfl)

/-! ## Quote-free behaviour of the csv tokenizer -/

end Breather
